import Mathlib

/-! Post handlers of the MERN tutorial backend (`routes/api/posts.js`).

A shallow embedding of the Express route handlers for posts: get-by-id, delete,
like, unlike, add-comment and delete-comment.

Modelling conventions:

* An `ObjectId` is a natural number. A route parameter is an `Option ObjectId`:
  `some i` is the string form of the identifier `i`, `none` is any string that
  is not the string form of an identifier (Mongoose raises a cast error with
  `kind === "ObjectId"` when such a string reaches `findById`).
* `req.user.id`, set by the authentication middleware, is an `ObjectId`.
* The document store is an in-memory `Store`; every handler is a function
  `Store → ... → Store × Response` (explicit state passing). Store calls other
  than a cast error do not fail.
* The identifier and the timestamp that Mongoose attaches to a new comment are
  inputs of the add-comment request.
-/

namespace Posts

abbrev ObjectId := Nat

/-! ## JavaScript array operations used by the handlers -/

namespace JS

/-- Array method `unshift` with one argument: the array after the call. -/
def unshift {α : Type} (xs : List α) (x : α) : List α := x :: xs

/-- Array method `indexOf`: position of the first element equal to `x`, or `-1`. -/
def indexOf {α : Type} [DecidableEq α] (xs : List α) (x : α) : Int :=
  if x ∈ xs then (List.indexOf x xs : Nat) else -1

/-- Array method `splice(start, deleteCount)`: the array after the call. A negative
`start` counts from the end of the array. -/
def splice {α : Type} (xs : List α) (start : Int) (deleteCount : Nat) : List α :=
  let len : Int := xs.length
  let actualStart : Nat :=
    if start < 0 then (max (len + start) 0).toNat else (min start len).toNat
  let actualDeleteCount : Nat := min deleteCount (xs.length - actualStart)
  xs.take actualStart ++ xs.drop (actualStart + actualDeleteCount)

end JS

/-! ## Data model -/

/-- Modelled from the spec: the User schema (`models/User`) is not part of the sources;
a user has an identity, a name, an email, a hashed credential and an avatar reference. -/
structure User where
  _id : ObjectId
  name : String
  email : String
  password : String
  avatar : String
deriving DecidableEq, Repr

/-- Modelled from the spec: the Like sub-document of the Post schema (`models/Post`) is
not part of the sources; a Like is an embedded record referencing a user. -/
structure Like where
  user : ObjectId
deriving DecidableEq, Repr

/-- Modelled from the spec: the Comment sub-document of the Post schema (`models/Post`)
is not part of the sources; a Comment has a text, an author snapshot (name, avatar), a
user reference, an identifier and a timestamp. -/
structure Comment where
  id : ObjectId
  user : ObjectId
  text : String
  name : String
  avatar : String
  date : Nat
deriving DecidableEq, Repr

/-- Modelled from the spec: the Post schema (`models/Post`) is not part of the sources;
a Post has an owning user reference, a text, an author snapshot (name, avatar), a
creation timestamp, an ordered sequence of Likes and an ordered sequence of Comments. -/
structure Post where
  _id : ObjectId
  user : ObjectId
  text : String
  name : String
  avatar : String
  date : Nat
  likes : List Like
  comments : List Comment
deriving DecidableEq, Repr

/-- The document store: the `users` and the `posts` collections. -/
structure Store where
  users : List User
  posts : List Post
deriving DecidableEq, Repr

/-- Every document of the `posts` collection has its own `_id` (the unique index
that the store keeps on `_id`). -/
def Store.WF (st : Store) : Prop := (st.posts.map (fun p => p._id)).Nodup

instance (st : Store) : Decidable st.WF := by unfold Store.WF; infer_instance

/-- Errors raised by a store call. -/
inductive StoreError where
  | castObjectId
deriving DecidableEq, Repr

/-- Store call `User.findById(id)`. -/
def User.findById (st : Store) (id : ObjectId) : Option User :=
  st.users.find? (fun u => u._id == id)

/-- Store call `Post.findById(id)`: a cast error for a malformed identifier, else the document with
that `_id`, if any. -/
def Post.findById (st : Store) (id : Option ObjectId) : Except StoreError (Option Post) :=
  match id with
  | none => .error .castObjectId
  | some i => .ok (st.posts.find? (fun p => p._id == i))

/-- Replace the first document of the collection that has the `_id` of `post`. -/
def updateOne : List Post → Post → List Post
  | [], _ => []
  | q :: qs, post => if q._id == post._id then post :: qs else q :: updateOne qs post

/-- Store call `post.save()` on a document that was loaded from the store. -/
def Post.save (st : Store) (post : Post) : Store :=
  { st with posts := updateOne st.posts post }

/-- Store call `post.remove()`: delete the document with the `_id` of `post`. -/
def Post.remove (st : Store) (post : Post) : Store :=
  { st with posts := st.posts.eraseP (fun q => q._id == post._id) }

/-! ## Responses -/

/-- The body of a response. -/
inductive Body where
  | msg (m : String)
  | send (s : String)
  | errors (es : List String)
  | post (p : Post)
  | likes (ls : List Like)
  | comments (cs : List Comment)
deriving DecidableEq, Repr

/-- A response: `res.status(status).json(body)` or `res.status(status).send(body)`. -/
structure Response where
  status : Nat
  body : Body
deriving DecidableEq, Repr

/-! ## Handlers -/

/-- Handler of `GET api/posts/:id` (posts.js, lines 69-87). -/
def getPost (st : Store) (id : Option ObjectId) : Store × Response :=
  match Post.findById st id with
  | .error .castObjectId => (st, ⟨404, .msg "No post found"⟩)
  | .ok none => (st, ⟨404, .msg "No post found"⟩)
  | .ok (some post) => (st, ⟨200, .post post⟩)

/-- Handler of `DELETE api/posts/:id` (posts.js, lines 92-117). -/
def deletePost (st : Store) (id : Option ObjectId) (reqUser : ObjectId) : Store × Response :=
  match Post.findById st id with
  | .error .castObjectId => (st, ⟨404, .msg "No post found"⟩)
  | .ok none => (st, ⟨400, .msg "Post does not exist"⟩)
  | .ok (some post) =>
    if post.user ≠ reqUser then
      (st, ⟨401, .msg "Can only delete posts this user has made"⟩)
    else
      (Post.remove st post, ⟨200, .msg "Post deleted successfully"⟩)

/-- Handler of `PUT api/posts/like/:id` (posts.js, lines 122-146). -/
def likePost (st : Store) (id : Option ObjectId) (reqUser : ObjectId) : Store × Response :=
  match Post.findById st id with
  | .error _ => (st, ⟨500, .send "Server error"⟩)
  | .ok none => (st, ⟨404, .msg "No post found"⟩)
  | .ok (some post) =>
    if (post.likes.filter (fun like => like.user == reqUser)).length > 0 then
      (st, ⟨400, .msg "Post has already been liked by user"⟩)
    else
      let post := { post with likes := JS.unshift post.likes { user := reqUser } }
      (Post.save st post, ⟨201, .likes post.likes⟩)

/-- The `removeIndex` of the unlike handler (posts.js, lines 168-170). -/
def unlikeRemoveIndex (likes : List Like) (reqUser : ObjectId) : Int :=
  JS.indexOf (likes.map (fun like => like.user)) reqUser

/-- Handler of `DELETE api/posts/unlike/:id` (posts.js, lines 151-180). -/
def unlikePost (st : Store) (id : Option ObjectId) (reqUser : ObjectId) : Store × Response :=
  match Post.findById st id with
  | .error _ => (st, ⟨500, .send "Server error"⟩)
  | .ok none => (st, ⟨404, .msg "No post found"⟩)
  | .ok (some post) =>
    if (post.likes.filter (fun like => like.user == reqUser)).length = 0 then
      (st, ⟨400, .msg "Post cannot be unliked by user"⟩)
    else
      let removeIndex := unlikeRemoveIndex post.likes reqUser
      let post := { post with likes := JS.splice post.likes removeIndex 1 }
      (Post.save st post, ⟨200, .likes post.likes⟩)

/-- The `newComment` of the add-comment handler (posts.js, lines 214-219), with the
identifier and the timestamp that the store attaches to it. -/
def newComment (user : User) (reqUser : ObjectId) (text : String) (newId : ObjectId)
    (now : Nat) : Comment :=
  { id := newId, user := reqUser, text := text, name := user.name, avatar := user.avatar,
    date := now }

/-- Handler of `POST api/posts/comment/:id` (posts.js, lines 185-229). `newId` and `now` are the
identifier and the timestamp that the store attaches to the new comment. -/
def addComment (st : Store) (id : Option ObjectId) (reqUser : ObjectId) (text : String)
    (newId : ObjectId) (now : Nat) : Store × Response :=
  if text.isEmpty then
    (st, ⟨400, .errors ["Text is required"]⟩)
  else
    let user := User.findById st reqUser
    match Post.findById st id with
    | .error _ => (st, ⟨500, .send "Server error"⟩)
    | .ok post =>
      match user with
      | none => (st, ⟨400, .msg "No user found"⟩)
      | some user =>
        match post with
        | none => (st, ⟨400, .msg "No post found"⟩)
        | some post =>
          let newComment := newComment user reqUser text newId now
          let post := { post with comments := JS.unshift post.comments newComment }
          (Post.save st post, ⟨201, .comments post.comments⟩)

/-- The `removeIndex` of the delete-comment handler (posts.js, line 254). -/
def commentRemoveIndex (comments : List Comment) (comment : Comment) : Int :=
  JS.indexOf (comments.map (fun item => item.id)) comment.id

/-- Handler of `DELETE api/posts/comment/:id/:comment_id` (posts.js, lines 234-262). -/
def deleteComment (st : Store) (id : Option ObjectId) (commentId : Option ObjectId)
    (reqUser : ObjectId) : Store × Response :=
  match Post.findById st id with
  | .error _ => (st, ⟨500, .send "Server response"⟩)
  | .ok none => (st, ⟨400, .msg "No post found"⟩)
  | .ok (some post) =>
    match post.comments.find? (fun comment => some comment.id == commentId) with
    | none => (st, ⟨404, .msg "No comment exists"⟩)
    | some comment =>
      if comment.user ≠ reqUser then
        (st, ⟨401, .msg "User not authorized"⟩)
      else
        let removeIndex := commentRemoveIndex post.comments comment
        let post := { post with comments := JS.splice post.comments removeIndex 1 }
        (Post.save st post, ⟨200, .comments post.comments⟩)

/-- A request to one of the post routes, with the identity that the authentication
middleware attached to it. -/
inductive Request where
  | getPost (id : Option ObjectId) (reqUser : ObjectId)
  | deletePost (id : Option ObjectId) (reqUser : ObjectId)
  | like (id : Option ObjectId) (reqUser : ObjectId)
  | unlike (id : Option ObjectId) (reqUser : ObjectId)
  | addComment (id : Option ObjectId) (reqUser : ObjectId) (text : String)
      (newId : ObjectId) (now : Nat)
  | deleteComment (id : Option ObjectId) (commentId : Option ObjectId) (reqUser : ObjectId)
deriving DecidableEq, Repr

/-- The requester of a request (`req.user.id`). -/
def Request.reqUser : Request → ObjectId
  | .getPost _ u => u
  | .deletePost _ u => u
  | .like _ u => u
  | .unlike _ u => u
  | .addComment _ u _ _ _ => u
  | .deleteComment _ _ u => u

/-- The post identifier in the path of a request (`req.params.id`). -/
def Request.target : Request → Option ObjectId
  | .getPost id _ => id
  | .deletePost id _ => id
  | .like id _ => id
  | .unlike id _ => id
  | .addComment id _ _ _ _ => id
  | .deleteComment id _ _ => id

/-- The router: dispatch a request to its handler. -/
def handle (st : Store) : Request → Store × Response
  | .getPost id _ => getPost st id
  | .deletePost id u => deletePost st id u
  | .like id u => likePost st id u
  | .unlike id u => unlikePost st id u
  | .addComment id u text newId now => addComment st id u text newId now
  | .deleteComment id c u => deleteComment st id c u

/-- The requests that update a stored post in place: like, unlike, add-comment and
delete-comment. -/
def Request.isPostUpdate : Request → Bool
  | .like _ _ => true
  | .unlike _ _ => true
  | .addComment _ _ _ _ _ => true
  | .deleteComment _ _ _ => true
  | _ => false

/-- A like sequence holds at most one Like per user: no duplicate user references. -/
def LikesUnique (likes : List Like) : Prop := (likes.map (fun like => like.user)).Nodup

instance (likes : List Like) : Decidable (LikesUnique likes) := by
  unfold LikesUnique; infer_instance

/-- What a request is allowed to have done to the stored post `p` when the post found
under `pid` after the request, `after`, is not `p` any more. -/
def PermittedChange (req : Request) (p : Post) (after : Except StoreError (Option Post)) :
    Prop :=
  match req with
  | .getPost _ _ => False
  | .deletePost _ r => p.user = r
  | .like _ r => after = .ok (some { p with likes := { user := r } :: p.likes })
  | .unlike _ r =>
    ∃ pre l post, p.likes = pre ++ l :: post ∧ l.user = r ∧
      after = .ok (some { p with likes := pre ++ post })
  | .addComment _ r _ _ _ =>
    ∃ c : Comment, c.user = r ∧ after = .ok (some { p with comments := c :: p.comments })
  | .deleteComment _ _ r =>
    ∃ pre cm post, p.comments = pre ++ cm :: post ∧ cm.user = r ∧
      after = .ok (some { p with comments := pre ++ post })

/-! ## Sample data -/

def alice : User := { _id := 1, name := "alice", email := "a@x", password := "h1", avatar := "a.png" }

def bob : User := { _id := 2, name := "bob", email := "b@x", password := "h2", avatar := "b.png" }

def post10 : Post :=
  { _id := 10, user := 1, text := "hello", name := "alice", avatar := "a.png", date := 100,
    likes := [], comments := [] }

def post11 : Post :=
  { _id := 11, user := 2, text := "world", name := "bob", avatar := "b.png", date := 101,
    likes := [⟨1⟩, ⟨2⟩],
    comments := [{ id := 50, user := 1, text := "hi", name := "alice", avatar := "a.png", date := 102 }] }

def post12 : Post :=
  { _id := 12, user := 1, text := "again", name := "alice", avatar := "a.png", date := 103,
    likes := [⟨2⟩], comments := [] }

def store0 : Store := { users := [alice, bob], posts := [post10, post11, post12] }

/-! ## Lemmas on the array operations -/

theorem JS.indexOf_of_not_mem {α : Type} [DecidableEq α] (xs : List α) (x : α)
    (h : x ∉ xs) : JS.indexOf xs x = -1 := by
  simp [JS.indexOf, h]

theorem JS.splice_at_length {α : Type} (pre post : List α) (x : α) :
    JS.splice (pre ++ x :: post) (pre.length : Int) 1 = pre ++ post := by
  have h1 : ¬ ((pre.length : Int) < 0) := by omega
  have h2 : (min (pre.length : Int) ((pre ++ x :: post).length : Int)).toNat = pre.length := by
    simp
    omega
  simp only [JS.splice, h1, if_false, h2]
  have h3 : min 1 ((pre ++ x :: post).length - pre.length) = 1 := by
    simp
  rw [h3, List.take_left]
  have h4 : List.drop (pre.length + 1) (pre ++ x :: post) = post := by
    rw [← List.drop_drop]
    simp
  rw [h4]

/-- The first element whose image under `f` is `b` splits the list, and `indexOf` over
the mapped list is the length of the part before it. -/
theorem JS.indexOf_map_split {α β : Type} [DecidableEq β] (f : α → β) (b : β) :
    ∀ xs : List α, b ∈ xs.map f →
      ∃ pre x post, xs = pre ++ x :: post ∧ f x = b ∧ (∀ y ∈ pre, f y ≠ b) ∧
        JS.indexOf (xs.map f) b = (pre.length : Int)
  | [], h => by simp at h
  | y :: ys, h => by
    by_cases hy : f y = b
    · refine ⟨[], y, ys, rfl, hy, by simp, ?_⟩
      simp [JS.indexOf, hy]
    · have hmem : b ∈ ys.map f := by
        simp only [List.map_cons, List.mem_cons] at h
        rcases h with h | h
        · exact absurd h.symm hy
        · exact h
      obtain ⟨pre, x, post, hsplit, hx, hpre, hidx⟩ := JS.indexOf_map_split f b ys hmem
      refine ⟨y :: pre, x, post, by simp [hsplit], hx, ?_, ?_⟩
      · intro z hz
        simp only [List.mem_cons] at hz
        rcases hz with hz | hz
        · exact hz ▸ hy
        · exact hpre z hz
      · have hb : b ∈ List.map f (y :: ys) := h
        have hne : ¬ (b = f y) := fun e => hy e.symm
        simp only [JS.indexOf, hmem, if_true] at hidx
        have hlen : List.indexOf b (List.map f ys) = pre.length := by exact_mod_cast hidx
        unfold JS.indexOf
        rw [if_pos hb, List.map_cons, List.indexOf_cons_ne _ (fun e => hy e), hlen]
        simp

/-- When `x` is the first element of the list whose image under `f` is `b`, `indexOf`
over the mapped list is the position of `x`. -/
theorem JS.indexOf_map_of_split {α β : Type} [DecidableEq β] (f : α → β) (b : β)
    (x : α) (post : List α) (hx : f x = b) :
    ∀ pre : List α, (∀ y ∈ pre, f y ≠ b) →
      JS.indexOf ((pre ++ x :: post).map f) b = (pre.length : Int)
  | [], _ => by simp [JS.indexOf, hx]
  | y :: pre, hpre => by
    have hy : f y ≠ b := hpre y (by simp)
    have ih := JS.indexOf_map_of_split f b x post hx pre
      (fun z hz => hpre z (List.mem_cons_of_mem _ hz))
    have hmem : b ∈ (pre ++ x :: post).map f := by
      rw [List.mem_map]
      exact ⟨x, by simp, hx⟩
    have hmem2 : b ∈ ((y :: pre) ++ x :: post).map f := by
      rw [List.mem_map]
      exact ⟨x, by simp, hx⟩
    unfold JS.indexOf at ih
    rw [if_pos hmem] at ih
    have hlen : List.indexOf b ((pre ++ x :: post).map f) = pre.length := by exact_mod_cast ih
    unfold JS.indexOf
    rw [if_pos hmem2, List.cons_append, List.map_cons, List.indexOf_cons_ne _ (fun e => hy e), hlen]
    simp

theorem find_of_split {α : Type} (q : α → Bool) (x : α) (post : List α) (hx : q x = true) :
    ∀ pre : List α, (∀ y ∈ pre, q y = false) → (pre ++ x :: post).find? q = some x
  | [], _ => by simp [hx]
  | y :: pre, hpre => by
    have hy : q y = false := hpre y (by simp)
    rw [List.cons_append, List.find?_cons, hy]
    exact find_of_split q x post hx pre (fun z hz => hpre z (List.mem_cons_of_mem _ hz))

/-! ## Lemmas on the store -/

theorem find_id_eq {posts : List Post} {i : ObjectId} {p : Post}
    (h : posts.find? (fun q => q._id == i) = some p) : p._id = i := by
  have := List.find?_some h
  simpa using this

theorem find_updateOne_same (p' : Post) :
    ∀ (posts : List Post) (p : Post), posts.find? (fun q => q._id == p'._id) = some p →
      (updateOne posts p').find? (fun q => q._id == p'._id) = some p'
  | [], _, h => by simp at h
  | q :: qs, p, h => by
    by_cases hq : q._id = p'._id
    · simp [updateOne, hq]
    · have hq' : (q._id == p'._id) = false := by simpa using hq
      rw [List.find?_cons, hq'] at h
      simp only [updateOne, hq', Bool.false_eq_true, if_false, List.find?_cons]
      exact find_updateOne_same p' qs p h

theorem find_updateOne_other (p' : Post) (j : ObjectId) (hj : j ≠ p'._id) :
    ∀ posts : List Post,
      (updateOne posts p').find? (fun q => q._id == j) = posts.find? (fun q => q._id == j)
  | [] => rfl
  | q :: qs => by
    by_cases hq : q._id = p'._id
    · have h1 : (q._id == j) = false := by
        simp only [beq_eq_false_iff_ne, ne_eq]
        intro e
        exact hj (e ▸ hq)
      have h2 : (p'._id == j) = false := by
        simp only [beq_eq_false_iff_ne, ne_eq]
        exact fun e => hj e.symm
      simp [updateOne, hq, List.find?_cons, h1, h2]
    · have hq' : (q._id == p'._id) = false := by simpa using hq
      simp only [updateOne, hq', Bool.false_eq_true, if_false, List.find?_cons]
      rw [find_updateOne_other p' j hj qs]

theorem findById_id_eq {st : Store} {pid : ObjectId} {p : Post}
    (h : Post.findById st (some pid) = .ok (some p)) : p._id = pid := by
  simp only [Post.findById, Except.ok.injEq] at h
  exact find_id_eq h

theorem findById_save_same {st : Store} {pid : ObjectId} {p : Post} (p' : Post)
    (h : Post.findById st (some pid) = .ok (some p)) (hid : p'._id = p._id) :
    Post.findById (Post.save st p') (some pid) = .ok (some p') := by
  have hp : p._id = pid := findById_id_eq h
  simp only [Post.findById, Except.ok.injEq] at h
  simp only [Post.findById, Post.save, Except.ok.injEq]
  have e : pid = p'._id := by rw [hid, hp]
  subst e
  exact find_updateOne_same p' st.posts p h

theorem findById_save_other (st : Store) (p' : Post) (j : ObjectId) (hj : j ≠ p'._id) :
    Post.findById (Post.save st p') (some j) = Post.findById st (some j) := by
  simp only [Post.findById, Post.save, Except.ok.injEq]
  exact find_updateOne_other p' j hj st.posts

theorem filter_user_length_pos_iff (likes : List Like) (u : ObjectId) :
    (likes.filter (fun like => like.user == u)).length > 0 ↔ ∃ l ∈ likes, l.user = u := by
  rw [gt_iff_lt, List.length_pos, ne_eq, List.filter_eq_nil_iff]
  simp

theorem filter_user_length_zero_iff (likes : List Like) (u : ObjectId) :
    (likes.filter (fun like => like.user == u)).length = 0 ↔ ∀ l ∈ likes, l.user ≠ u := by
  rw [List.length_eq_zero, List.filter_eq_nil_iff]
  simp

theorem find_eraseP_other (i j : ObjectId) (hj : j ≠ i) :
    ∀ posts : List Post,
      (posts.eraseP (fun q => q._id == i)).find? (fun q => q._id == j) =
        posts.find? (fun q => q._id == j)
  | [] => rfl
  | q :: qs => by
    by_cases hq : q._id = i
    · have h1 : (q._id == j) = false := by
        simp only [beq_eq_false_iff_ne, ne_eq]
        intro e
        exact hj (e ▸ hq)
      have h2 : (q._id == i) = true := by simpa using hq
      rw [List.eraseP_cons, h2, List.find?_cons, h1]
      rfl
    · have hq' : (q._id == i) = false := by simpa using hq
      rw [List.eraseP_cons, hq']
      simp only [cond_false, List.find?_cons]
      rw [find_eraseP_other i j hj qs]

theorem find_eraseP_same (i : ObjectId) :
    ∀ posts : List Post, (posts.map (fun p => p._id)).Nodup →
      (posts.eraseP (fun q => q._id == i)).find? (fun q => q._id == i) = none
  | [], _ => rfl
  | q :: qs, hnd => by
    rw [List.map_cons, List.nodup_cons] at hnd
    by_cases hq : q._id = i
    · have hnone : ∀ x ∈ qs, ¬ (x._id == i) = true := by
        intro x hx hxi
        apply hnd.1
        have e : x._id = i := by simpa using hxi
        rw [hq, ← e]
        exact List.mem_map.mpr ⟨x, hx, rfl⟩
      simp only [List.eraseP_cons, hq, beq_self_eq_true, cond_true]
      exact List.find?_eq_none.mpr hnone
    · have hq' : (q._id == i) = false := by simpa using hq
      rw [List.eraseP_cons, hq']
      simp only [cond_false, List.find?_cons, hq']
      exact find_eraseP_same i qs hnd.2

/-! ## One step of each handler on an existing post -/

theorem likePost_cases (st : Store) (pid : ObjectId) (p : Post) (u : ObjectId)
    (hfind : Post.findById st (some pid) = .ok (some p)) :
    ((∃ l ∈ p.likes, l.user = u) ∧
        likePost st (some pid) u = (st, ⟨400, .msg "Post has already been liked by user"⟩)) ∨
      ((∀ l ∈ p.likes, l.user ≠ u) ∧
        likePost st (some pid) u =
          (Post.save st { p with likes := { user := u } :: p.likes },
            ⟨201, .likes ({ user := u } :: p.likes)⟩)) := by
  by_cases hpos : (p.likes.filter (fun like => like.user == u)).length > 0
  · left
    refine ⟨(filter_user_length_pos_iff p.likes u).mp hpos, ?_⟩
    simp only [likePost, hfind, hpos, if_true]
  · right
    refine ⟨?_, ?_⟩
    · rw [← filter_user_length_zero_iff]
      omega
    · simp only [likePost, hfind, hpos, if_false, JS.unshift]

theorem unlikePost_cases (st : Store) (pid : ObjectId) (p : Post) (u : ObjectId)
    (hfind : Post.findById st (some pid) = .ok (some p)) :
    ((∀ l ∈ p.likes, l.user ≠ u) ∧
        unlikePost st (some pid) u = (st, ⟨400, .msg "Post cannot be unliked by user"⟩)) ∨
      (∃ pre l post, p.likes = pre ++ l :: post ∧ l.user = u ∧ (∀ x ∈ pre, x.user ≠ u) ∧
        unlikeRemoveIndex p.likes u = (pre.length : Int) ∧
        unlikePost st (some pid) u =
          (Post.save st { p with likes := pre ++ post }, ⟨200, .likes (pre ++ post)⟩)) := by
  by_cases hzero : (p.likes.filter (fun like => like.user == u)).length = 0
  · left
    refine ⟨(filter_user_length_zero_iff p.likes u).mp hzero, ?_⟩
    simp only [unlikePost, hfind, hzero, if_true]
  · right
    have hmem : u ∈ p.likes.map (fun like => like.user) := by
      by_contra hcon
      apply hzero
      rw [filter_user_length_zero_iff]
      intro l hl hu
      exact hcon (List.mem_map.mpr ⟨l, hl, hu⟩)
    obtain ⟨pre, l, post, hsplit, hlu, hpre, hidx⟩ :=
      JS.indexOf_map_split (fun like : Like => like.user) u p.likes hmem
    have hidx2 : unlikeRemoveIndex p.likes u = (pre.length : Int) := hidx
    have hsplice : JS.splice p.likes (unlikeRemoveIndex p.likes u) 1 = pre ++ post := by
      rw [hidx2, hsplit]
      exact JS.splice_at_length pre post l
    refine ⟨pre, l, post, hsplit, hlu, hpre, hidx2, ?_⟩
    simp only [unlikePost, hfind, hzero, if_false, hsplice]

theorem addComment_ok (st : Store) (pid : ObjectId) (p : Post) (u : ObjectId) (usr : User)
    (text : String) (newId : ObjectId) (now : Nat)
    (hfind : Post.findById st (some pid) = .ok (some p))
    (huser : User.findById st u = some usr) (htext : text.isEmpty = false) :
    addComment st (some pid) u text newId now =
      (Post.save st { p with comments := newComment usr u text newId now :: p.comments },
        ⟨201, .comments (newComment usr u text newId now :: p.comments)⟩) := by
  simp [addComment, hfind, huser, htext, JS.unshift]

theorem addComment_cases (st : Store) (pid : ObjectId) (p : Post) (u : ObjectId)
    (text : String) (newId : ObjectId) (now : Nat)
    (hfind : Post.findById st (some pid) = .ok (some p)) :
    (addComment st (some pid) u text newId now).1 = st ∨
      ∃ c : Comment, c.user = u ∧ c.id = newId ∧
        (addComment st (some pid) u text newId now).1 =
          Post.save st { p with comments := c :: p.comments } := by
  cases htext : text.isEmpty with
  | true =>
    left
    simp [addComment, htext]
  | false =>
    cases huser : User.findById st u with
    | none =>
      left
      simp [addComment, hfind, huser, htext]
    | some usr =>
      right
      rw [addComment_ok st pid p u usr text newId now hfind huser htext]
      exact ⟨_, rfl, rfl, rfl⟩

theorem deleteComment_of_split (st : Store) (pid : ObjectId) (p : Post)
    (cid : Option ObjectId) (r : ObjectId) (pre post : List Comment) (cm : Comment)
    (hfind : Post.findById st (some pid) = .ok (some p))
    (hsplit : p.comments = pre ++ cm :: post) (hcm : some cm.id = cid)
    (hpre : ∀ x ∈ pre, some x.id ≠ cid) (hr : cm.user = r) :
    deleteComment st (some pid) cid r =
      (Post.save st { p with comments := pre ++ post }, ⟨200, .comments (pre ++ post)⟩) := by
  have hf : p.comments.find? (fun comment => some comment.id == cid) = some cm := by
    rw [hsplit]
    apply find_of_split _ cm post (by simpa using hcm) pre
    intro y hy
    simpa using hpre y hy
  have hidx : commentRemoveIndex p.comments cm = (pre.length : Int) := by
    unfold commentRemoveIndex
    rw [hsplit]
    apply JS.indexOf_map_of_split (fun item : Comment => item.id) cm.id cm post rfl pre
    intro y hy e
    apply hpre y hy
    rw [e, hcm]
  have hsplice : JS.splice p.comments (commentRemoveIndex p.comments cm) 1 = pre ++ post := by
    rw [hidx, hsplit]
    exact JS.splice_at_length pre post cm
  simp [deleteComment, hfind, hf, hr, hsplice]

/-- The first element that satisfies `q` splits the list. -/
theorem split_of_find {α : Type} (q : α → Bool) :
    ∀ (xs : List α) (x : α), xs.find? q = some x →
      ∃ pre post, xs = pre ++ x :: post ∧ q x = true ∧ ∀ y ∈ pre, q y = false
  | [], _, h => by simp at h
  | y :: ys, x, h => by
    cases hy : q y with
    | true =>
      rw [List.find?_cons, hy] at h
      have e : y = x := by simpa using h
      subst e
      exact ⟨[], ys, rfl, hy, by simp⟩
    | false =>
      rw [List.find?_cons, hy] at h
      obtain ⟨pre, post, hsplit, hx, hpre⟩ := split_of_find q ys x h
      refine ⟨y :: pre, post, by simp [hsplit], hx, ?_⟩
      intro z hz
      rcases List.mem_cons.mp hz with hz | hz
      · exact hz ▸ hy
      · exact hpre z hz

theorem deleteComment_cases (st : Store) (pid : ObjectId) (p : Post)
    (cid : Option ObjectId) (r : ObjectId)
    (hfind : Post.findById st (some pid) = .ok (some p)) :
    (deleteComment st (some pid) cid r).1 = st ∨
      ∃ pre cm post, p.comments = pre ++ cm :: post ∧ some cm.id = cid ∧ cm.user = r ∧
        (∀ x ∈ pre, some x.id ≠ cid) ∧
        deleteComment st (some pid) cid r =
          (Post.save st { p with comments := pre ++ post },
            ⟨200, .comments (pre ++ post)⟩) := by
  cases hf : p.comments.find? (fun comment => some comment.id == cid) with
  | none =>
    left
    simp only [deleteComment, hfind, hf]
  | some cm =>
    by_cases hr : cm.user = r
    · right
      obtain ⟨pre, post, hsplit, hx, hpre⟩ := split_of_find _ p.comments cm hf
      have hcm : some cm.id = cid := by simpa using hx
      have hpre2 : ∀ x ∈ pre, some x.id ≠ cid := by
        intro x hxm
        simpa using hpre x hxm
      exact ⟨pre, cm, post, hsplit, hcm, hr, hpre2,
        deleteComment_of_split st pid p cid r pre post cm hfind hsplit hcm hpre2 hr⟩
    · left
      simp only [deleteComment, hfind, hf, hr, ne_eq, not_false_eq_true, if_true]

theorem deletePost_cases (st : Store) (pid : ObjectId) (p : Post) (r : ObjectId)
    (hfind : Post.findById st (some pid) = .ok (some p)) :
    (p.user ≠ r ∧ deletePost st (some pid) r =
        (st, ⟨401, .msg "Can only delete posts this user has made"⟩)) ∨
      (p.user = r ∧ deletePost st (some pid) r =
        (Post.remove st p, ⟨200, .msg "Post deleted successfully"⟩)) := by
  by_cases h : p.user = r
  · right
    exact ⟨h, by simp [deletePost, hfind, h]⟩
  · left
    exact ⟨h, by simp only [deletePost, hfind, h, ne_eq, not_false_eq_true, if_true]⟩

/-! ## Frame: a request leaves the posts it does not address untouched -/

theorem handle_not_found (st : Store) (req : Request)
    (h : ∀ q, Post.findById st req.target ≠ .ok (some q)) : (handle st req).1 = st := by
  cases req with
  | getPost id u =>
    simp only [handle, getPost]
    split <;> rfl
  | deletePost id u =>
    simp only [Request.target] at h
    simp only [handle, deletePost]
    split
    · rfl
    · rfl
    · rename_i q hq
      exact absurd hq (h q)
  | like id u =>
    simp only [Request.target] at h
    simp only [handle, likePost]
    split
    · rfl
    · rfl
    · rename_i q hq
      exact absurd hq (h q)
  | unlike id u =>
    simp only [Request.target] at h
    simp only [handle, unlikePost]
    split
    · rfl
    · rfl
    · rename_i q hq
      exact absurd hq (h q)
  | addComment id u text newId now =>
    simp only [Request.target] at h
    simp only [handle, addComment]
    split
    · rfl
    · split
      · rfl
      · split
        · rfl
        · split
          · rfl
          · rename_i q hq
            exact absurd hq (h q)
  | deleteComment id c u =>
    simp only [Request.target] at h
    simp only [handle, deleteComment]
    split
    · rfl
    · rfl
    · rename_i q hq
      exact absurd hq (h q)

/-- The store after a request is the old one, or the old one with the addressed post
saved or removed. -/
theorem handle_state (st : Store) (req : Request) :
    (handle st req).1 = st ∨
      ∃ tid q', req.target = some tid ∧ q'._id = tid ∧
        ((handle st req).1 = Post.save st q' ∨ (handle st req).1 = Post.remove st q') := by
  by_cases h : ∀ q, Post.findById st req.target ≠ .ok (some q)
  · exact Or.inl (handle_not_found st req h)
  · push_neg at h
    obtain ⟨q, hq⟩ := h
    cases ht : req.target with
    | none =>
      rw [ht] at hq
      simp [Post.findById] at hq
    | some tid =>
      rw [ht] at hq
      have hid : q._id = tid := findById_id_eq hq
      cases req with
      | getPost id u =>
        left
        simp only [handle, getPost]
        split <;> rfl
      | deletePost id u =>
        simp only [Request.target] at ht
        subst ht
        rcases deletePost_cases st tid q u hq with ⟨-, h1⟩ | ⟨-, h1⟩
        · left
          simp only [handle, h1]
        · right
          exact ⟨tid, q, rfl, hid, Or.inr (by simp only [handle, h1])⟩
      | like id u =>
        simp only [Request.target] at ht
        subst ht
        rcases likePost_cases st tid q u hq with ⟨-, h1⟩ | ⟨-, h1⟩
        · left
          simp only [handle, h1]
        · right
          refine ⟨tid, _, rfl, ?_, Or.inl (by simp only [handle, h1]; rfl)⟩
          exact hid
      | unlike id u =>
        simp only [Request.target] at ht
        subst ht
        rcases unlikePost_cases st tid q u hq with ⟨-, h1⟩ | ⟨pre, l, post, -, -, -, -, h1⟩
        · left
          simp only [handle, h1]
        · right
          refine ⟨tid, _, rfl, ?_, Or.inl (by simp only [handle, h1]; rfl)⟩
          exact hid
      | addComment id u text newId now =>
        simp only [Request.target] at ht
        subst ht
        rcases addComment_cases st tid q u text newId now hq with h1 | ⟨c, -, -, h1⟩
        · left
          simp only [handle, h1]
        · right
          refine ⟨tid, _, rfl, ?_, Or.inl (by simp only [handle, h1]; rfl)⟩
          exact hid
      | deleteComment id c u =>
        simp only [Request.target] at ht
        subst ht
        rcases deleteComment_cases st tid q c u hq with h1 | ⟨pre, cm, post, -, -, -, -, h1⟩
        · left
          simp only [handle, h1]
        · right
          refine ⟨tid, _, rfl, ?_, Or.inl (by simp only [handle, h1]; rfl)⟩
          exact hid

theorem findById_remove_other (st : Store) (q : Post) (j : ObjectId) (hj : j ≠ q._id) :
    Post.findById (Post.remove st q) (some j) = Post.findById st (some j) := by
  simp only [Post.findById, Post.remove, Except.ok.injEq]
  exact find_eraseP_other q._id j hj st.posts

/-- A request addressed to another post leaves the post `pid` as it was. -/
theorem handle_frame (st : Store) (req : Request) (pid : ObjectId)
    (h : req.target ≠ some pid) :
    Post.findById (handle st req).1 (some pid) = Post.findById st (some pid) := by
  rcases handle_state st req with h1 | ⟨tid, q', ht, hid, h1 | h1⟩
  · rw [h1]
  · rw [h1]
    apply findById_save_other
    intro e
    apply h
    rw [ht, e, hid]
  · rw [h1]
    apply findById_remove_other
    intro e
    apply h
    rw [ht, e, hid]

/-! ## Distinct identifiers are an invariant of the store -/

theorem map_id_updateOne (p' : Post) :
    ∀ posts : List Post,
      (updateOne posts p').map (fun p => p._id) = posts.map (fun p => p._id)
  | [] => rfl
  | q :: qs => by
    by_cases hq : q._id = p'._id
    · simp [updateOne, hq]
    · have hq' : (q._id == p'._id) = false := by simpa using hq
      simp only [updateOne, hq', Bool.false_eq_true, if_false, List.map_cons]
      rw [map_id_updateOne p' qs]

/-- Every request keeps the identifiers of the stored posts distinct. -/
theorem handle_preserves_WF (st : Store) (req : Request) (hwf : st.WF) :
    (handle st req).1.WF := by
  rcases handle_state st req with h1 | ⟨tid, q', -, -, h1 | h1⟩
  · rw [h1]
    exact hwf
  · rw [h1]
    unfold Store.WF Post.save
    rw [map_id_updateOne]
    exact hwf
  · rw [h1]
    unfold Store.WF Post.remove
    exact hwf.sublist ((List.eraseP_sublist st.posts).map _)

/-! ## Like and unlike -/

/-- C2: on an existing post whose like sequence already holds a Like by `u`, the like
operation responds 400 and leaves the store (hence the post and its like sequence)
unchanged; in particular a like by `u` that follows a successful (201) like by `u`
responds 400 and leaves the store as the first like left it. -/
theorem like_twice_conflict (st : Store) (pid : ObjectId) (p : Post) (u : ObjectId)
    (hfind : Post.findById st (some pid) = .ok (some p)) :
    ((∃ l ∈ p.likes, l.user = u) →
        likePost st (some pid) u = (st, ⟨400, .msg "Post has already been liked by user"⟩)) ∧
      ((likePost st (some pid) u).2.status = 201 →
        likePost (likePost st (some pid) u).1 (some pid) u =
          ((likePost st (some pid) u).1, ⟨400, .msg "Post has already been liked by user"⟩)) := by
  constructor
  · intro hl
    have hpos := (filter_user_length_pos_iff p.likes u).mpr hl
    simp only [likePost, hfind, hpos, if_true]
  · intro h201
    by_cases hpos : (p.likes.filter (fun like => like.user == u)).length > 0
    · simp [likePost, hfind, hpos] at h201
    · have hsave := findById_save_same
        ({ p with likes := JS.unshift p.likes { user := u } }) hfind rfl
      have hpos2 : (List.filter (fun like => like.user == u)
          (JS.unshift p.likes { user := u })).length > 0 := by
        simp [JS.unshift]
      have hstep : likePost st (some pid) u =
          (Post.save st { p with likes := JS.unshift p.likes { user := u } },
            ⟨201, .likes (JS.unshift p.likes { user := u })⟩) := by
        simp only [likePost, hfind, hpos, if_false]
      rw [hstep]
      simp only [likePost, hsave, hpos2, if_true]

theorem like_twice_conflict_witness :
    likePost store0 (some 11) 1 =
      (store0, ⟨400, .msg "Post has already been liked by user"⟩) :=
  (like_twice_conflict store0 11 post11 1 rfl).1 ⟨⟨1⟩, by decide, rfl⟩

/-- C3: on an existing post with like sequence `L` that holds no Like by `u`, the like
operation responds 201, returns `{user: u} :: L`, and the stored post is the old one
with like sequence `{user: u} :: L`; on a post without likes the result is
`[{user: u}]`. -/
theorem like_prepends (st : Store) (pid : ObjectId) (p : Post) (u : ObjectId)
    (hfind : Post.findById st (some pid) = .ok (some p))
    (hnot : ∀ l ∈ p.likes, l.user ≠ u) :
    (likePost st (some pid) u).2 = ⟨201, .likes ({ user := u } :: p.likes)⟩ ∧
      Post.findById (likePost st (some pid) u).1 (some pid) =
        .ok (some { p with likes := { user := u } :: p.likes }) ∧
      (p.likes = [] → (likePost st (some pid) u).2 = ⟨201, .likes [{ user := u }]⟩) := by
  have hzero : ¬ (p.likes.filter (fun like => like.user == u)).length > 0 := by
    rw [(filter_user_length_zero_iff p.likes u).mpr hnot]
    decide
  have hstep : likePost st (some pid) u =
      (Post.save st { p with likes := JS.unshift p.likes { user := u } },
        ⟨201, .likes (JS.unshift p.likes { user := u })⟩) := by
    simp only [likePost, hfind, hzero, if_false]
  refine ⟨by rw [hstep]; rfl, ?_, ?_⟩
  · rw [hstep]
    exact findById_save_same _ hfind rfl
  · intro hnil
    rw [hstep, hnil]
    rfl

theorem like_prepends_witness :
    (likePost store0 (some 10) 2).2 = ⟨201, .likes [{ user := 2 }]⟩ :=
  (like_prepends store0 10 post10 2 rfl (by decide)).2.2 rfl

/-- C4: on an existing post, the unlike operation responds 400 if and only if the like
sequence holds no Like by `u`, and in that case the store is unchanged. -/
theorem unlike_conflict_iff (st : Store) (pid : ObjectId) (p : Post) (u : ObjectId)
    (hfind : Post.findById st (some pid) = .ok (some p)) :
    ((unlikePost st (some pid) u).2.status = 400 ↔ ∀ l ∈ p.likes, l.user ≠ u) ∧
      ((∀ l ∈ p.likes, l.user ≠ u) →
        unlikePost st (some pid) u = (st, ⟨400, .msg "Post cannot be unliked by user"⟩)) := by
  have hyes : (∀ l ∈ p.likes, l.user ≠ u) →
      unlikePost st (some pid) u = (st, ⟨400, .msg "Post cannot be unliked by user"⟩) := by
    intro hnot
    have hzero := (filter_user_length_zero_iff p.likes u).mpr hnot
    simp only [unlikePost, hfind, hzero, if_true]
  refine ⟨⟨?_, fun hnot => by rw [hyes hnot]⟩, hyes⟩
  intro h400
  by_contra hcon
  have hne : ¬ (p.likes.filter (fun like => like.user == u)).length = 0 := by
    rw [filter_user_length_zero_iff]
    exact hcon
  simp [unlikePost, hfind, hne] at h400

theorem unlike_conflict_iff_witness :
    unlikePost store0 (some 10) 1 = (store0, ⟨400, .msg "Post cannot be unliked by user"⟩) :=
  (unlike_conflict_iff store0 10 post10 1 rfl).2 (by decide)

/-- C5: on an existing post whose like sequence `L` holds a Like by `u`, `L` splits as
`pre ++ l :: post` at the first Like `l` of `u`; the computed remove index is the
position of `l` (a valid position, not -1); the unlike operation responds 200 and
returns `pre ++ post`, which is also the like sequence of the stored post; and when
`L` had at most one Like per user, `pre ++ post` holds no Like by `u`. -/
theorem unlike_removes_first (st : Store) (pid : ObjectId) (p : Post) (u : ObjectId)
    (hfind : Post.findById st (some pid) = .ok (some p))
    (hl : ∃ l ∈ p.likes, l.user = u) :
    ∃ pre l post, p.likes = pre ++ l :: post ∧ l.user = u ∧ (∀ x ∈ pre, x.user ≠ u) ∧
      unlikeRemoveIndex p.likes u = (pre.length : Int) ∧
      (0 ≤ unlikeRemoveIndex p.likes u ∧ unlikeRemoveIndex p.likes u < (p.likes.length : Int)) ∧
      (unlikePost st (some pid) u).2 = ⟨200, .likes (pre ++ post)⟩ ∧
      Post.findById (unlikePost st (some pid) u).1 (some pid) =
        .ok (some { p with likes := pre ++ post }) ∧
      (LikesUnique p.likes → ∀ x ∈ pre ++ post, x.user ≠ u) := by
  have hmem : u ∈ p.likes.map (fun like => like.user) := by
    obtain ⟨l, hl1, hl2⟩ := hl
    exact List.mem_map.mpr ⟨l, hl1, hl2⟩
  obtain ⟨pre, l, post, hsplit, hlu, hpre, hidx⟩ :=
    JS.indexOf_map_split (fun like : Like => like.user) u p.likes hmem
  have hidx2 : unlikeRemoveIndex p.likes u = (pre.length : Int) := hidx
  have hne : ¬ (p.likes.filter (fun like => like.user == u)).length = 0 := by
    rw [filter_user_length_zero_iff]
    intro hall
    obtain ⟨l', hl1, hl2⟩ := hl
    exact hall l' hl1 hl2
  have hsplice : JS.splice p.likes (unlikeRemoveIndex p.likes u) 1 = pre ++ post := by
    rw [hidx2, hsplit]
    exact JS.splice_at_length pre post l
  have hstep : unlikePost st (some pid) u =
      (Post.save st { p with likes := pre ++ post }, ⟨200, .likes (pre ++ post)⟩) := by
    simp only [unlikePost, hfind, hne, if_false, hsplice]
  refine ⟨pre, l, post, hsplit, hlu, hpre, hidx2, ?_, by rw [hstep], ?_, ?_⟩
  · rw [hidx2, hsplit]
    simp
  · rw [hstep]
    exact findById_save_same _ hfind rfl
  · intro huniq x hx
    rw [List.mem_append] at hx
    rcases hx with hx | hx
    · exact hpre x hx
    · intro hxu
      unfold LikesUnique at huniq
      rw [hsplit, List.map_append, List.map_cons] at huniq
      have h2 := (List.nodup_cons.mp (List.nodup_append.mp huniq).2.1).1
      apply h2
      rw [hlu, ← hxu]
      exact List.mem_map.mpr ⟨x, hx, rfl⟩

theorem unlike_removes_first_witness :
    ∃ pre l post, post11.likes = pre ++ l :: post ∧ l.user = 2 ∧ (∀ x ∈ pre, x.user ≠ 2) ∧
      unlikeRemoveIndex post11.likes 2 = (pre.length : Int) ∧
      (0 ≤ unlikeRemoveIndex post11.likes 2 ∧
        unlikeRemoveIndex post11.likes 2 < (post11.likes.length : Int)) ∧
      (unlikePost store0 (some 11) 2).2 = ⟨200, .likes (pre ++ post)⟩ ∧
      Post.findById (unlikePost store0 (some 11) 2).1 (some 11) =
        .ok (some { post11 with likes := pre ++ post }) ∧
      (LikesUnique post11.likes → ∀ x ∈ pre ++ post, x.user ≠ 2) :=
  unlike_removes_first store0 11 post11 2 rfl ⟨⟨2⟩, by decide, rfl⟩

/-! ## Deleting a post -/

/-- C7: on an existing post whose owning user differs from the requester, the
delete-post operation responds 401 and leaves the store unchanged. -/
theorem delete_post_non_owner (st : Store) (pid : ObjectId) (p : Post) (r : ObjectId)
    (hfind : Post.findById st (some pid) = .ok (some p)) (hne : p.user ≠ r) :
    deletePost st (some pid) r =
      (st, ⟨401, .msg "Can only delete posts this user has made"⟩) := by
  simp only [deletePost, hfind, hne, ne_eq, not_false_eq_true, if_true]

theorem delete_post_non_owner_witness :
    deletePost store0 (some 10) 2 =
      (store0, ⟨401, .msg "Can only delete posts this user has made"⟩) :=
  delete_post_non_owner store0 10 post10 2 rfl (by decide)

/-- C8: in a store whose posts have distinct identifiers, on an existing post whose
owning user is the requester, the delete-post operation responds 200, every post with
another identifier is found as before, the users are untouched, and a following
get-post-by-id with the same identifier responds 404. -/
theorem delete_post_owner (st : Store) (pid : ObjectId) (p : Post) (r : ObjectId)
    (hwf : st.WF) (hfind : Post.findById st (some pid) = .ok (some p)) (howner : p.user = r) :
    (deletePost st (some pid) r).2 = ⟨200, .msg "Post deleted successfully"⟩ ∧
      (∀ j, j ≠ pid →
        Post.findById (deletePost st (some pid) r).1 (some j) = Post.findById st (some j)) ∧
      (deletePost st (some pid) r).1.users = st.users ∧
      getPost (deletePost st (some pid) r).1 (some pid) =
        ((deletePost st (some pid) r).1, ⟨404, .msg "No post found"⟩) := by
  have hp : p._id = pid := findById_id_eq hfind
  have hstep : deletePost st (some pid) r =
      (Post.remove st p, ⟨200, .msg "Post deleted successfully"⟩) := by
    simp [deletePost, hfind, howner]
  have hgone : Post.findById (Post.remove st p) (some pid) = .ok none := by
    simp only [Post.findById, Post.remove, Except.ok.injEq, hp]
    exact find_eraseP_same pid st.posts hwf
  refine ⟨by rw [hstep], ?_, by rw [hstep]; rfl, ?_⟩
  · intro j hj
    rw [hstep]
    simp only [Post.findById, Post.remove, Except.ok.injEq, hp]
    exact find_eraseP_other pid j hj st.posts
  · rw [hstep]
    simp only [getPost, hgone]

theorem delete_post_owner_witness :
    (deletePost store0 (some 10) 1).2 = ⟨200, .msg "Post deleted successfully"⟩ ∧
      (∀ j, j ≠ 10 →
        Post.findById (deletePost store0 (some 10) 1).1 (some j) =
          Post.findById store0 (some j)) ∧
      (deletePost store0 (some 10) 1).1.users = store0.users ∧
      getPost (deletePost store0 (some 10) 1).1 (some 10) =
        ((deletePost store0 (some 10) 1).1, ⟨404, .msg "No post found"⟩) :=
  delete_post_owner store0 10 post10 1 (by decide) rfl rfl

/-! ## Comments -/

/-- C9: on an existing post with comment sequence `C`, delete-comment responds 404 and
leaves the store unchanged when no comment of `C` has the requested identifier; and
when `C` splits as `pre ++ cm :: post` at the first comment `cm` with that identifier,
it responds 401 and leaves the store unchanged if the author of `cm` is not the
requester, and otherwise responds 200, returns `pre ++ post` and stores the post with
comment sequence `pre ++ post`. -/
theorem delete_comment_cases (st : Store) (pid : ObjectId) (p : Post)
    (cid : Option ObjectId) (r : ObjectId)
    (hfind : Post.findById st (some pid) = .ok (some p)) :
    ((∀ x ∈ p.comments, some x.id ≠ cid) →
        deleteComment st (some pid) cid r = (st, ⟨404, .msg "No comment exists"⟩)) ∧
      (∀ pre cm post, p.comments = pre ++ cm :: post → some cm.id = cid →
        (∀ x ∈ pre, some x.id ≠ cid) →
        (cm.user ≠ r →
          deleteComment st (some pid) cid r = (st, ⟨401, .msg "User not authorized"⟩)) ∧
        (cm.user = r →
          (deleteComment st (some pid) cid r).2 = ⟨200, .comments (pre ++ post)⟩ ∧
          Post.findById (deleteComment st (some pid) cid r).1 (some pid) =
            .ok (some { p with comments := pre ++ post }))) := by
  constructor
  · intro hnone
    have hf : p.comments.find? (fun comment => some comment.id == cid) = none := by
      rw [List.find?_eq_none]
      intro x hx
      simpa using hnone x hx
    simp only [deleteComment, hfind, hf]
  · intro pre cm post hsplit hcm hpre
    have hf : p.comments.find? (fun comment => some comment.id == cid) = some cm := by
      rw [hsplit]
      apply find_of_split _ cm post (by simpa using hcm) pre
      intro y hy
      simpa using hpre y hy
    constructor
    · intro hne
      simp only [deleteComment, hfind, hf, hne, ne_eq, not_false_eq_true, if_true]
    · intro heq
      have hidx : commentRemoveIndex p.comments cm = (pre.length : Int) := by
        unfold commentRemoveIndex
        rw [hsplit]
        apply JS.indexOf_map_of_split (fun item : Comment => item.id) cm.id cm post rfl pre
        intro y hy e
        apply hpre y hy
        rw [e, hcm]
      have hsplice : JS.splice p.comments (commentRemoveIndex p.comments cm) 1 = pre ++ post := by
        rw [hidx, hsplit]
        exact JS.splice_at_length pre post cm
      have hstep : deleteComment st (some pid) cid r =
          (Post.save st { p with comments := pre ++ post },
            ⟨200, .comments (pre ++ post)⟩) := by
        simp [deleteComment, hfind, hf, heq, hsplice]
      rw [hstep]
      exact ⟨rfl, findById_save_same _ hfind rfl⟩

theorem delete_comment_cases_witness :
    deleteComment store0 (some 11) (some 50) 2 = (store0, ⟨401, .msg "User not authorized"⟩) :=
  ((delete_comment_cases store0 11 post11 (some 50) 2 rfl).2 []
    { id := 50, user := 1, text := "hi", name := "alice", avatar := "a.png", date := 102 } []
    rfl rfl (by simp)).1 (by decide)

/-- C10: on an existing post with comment sequence `C`, for an existing user `u`, a
non-empty text and a generated comment identifier that no comment of `C` uses,
add-comment by `u` responds 201 and returns and stores the new comment prepended to
`C`; a following delete-comment by `u` with the new identifier responds 200 and
returns `C`, which does not contain the new comment, and the stored post is again the
original post. -/
theorem add_then_delete_comment (st : Store) (pid : ObjectId) (p : Post) (u : ObjectId)
    (usr : User) (text : String) (newId : ObjectId) (now : Nat)
    (hfind : Post.findById st (some pid) = .ok (some p))
    (huser : User.findById st u = some usr) (htext : text.isEmpty = false)
    (hfresh : ∀ x ∈ p.comments, x.id ≠ newId) :
    (addComment st (some pid) u text newId now).2 =
        ⟨201, .comments (newComment usr u text newId now :: p.comments)⟩ ∧
      Post.findById (addComment st (some pid) u text newId now).1 (some pid) =
        .ok (some { p with comments := newComment usr u text newId now :: p.comments }) ∧
      (deleteComment (addComment st (some pid) u text newId now).1 (some pid) (some newId) u).2 =
        ⟨200, .comments p.comments⟩ ∧
      newComment usr u text newId now ∉ p.comments ∧
      Post.findById
        (deleteComment (addComment st (some pid) u text newId now).1 (some pid) (some newId) u).1
        (some pid) = .ok (some p) := by
  have hadd := addComment_ok st pid p u usr text newId now hfind huser htext
  have hfind2 : Post.findById (addComment st (some pid) u text newId now).1 (some pid) =
      .ok (some { p with comments := newComment usr u text newId now :: p.comments }) := by
    rw [hadd]
    exact findById_save_same _ hfind rfl
  have hdel := deleteComment_of_split (addComment st (some pid) u text newId now).1 pid
    { p with comments := newComment usr u text newId now :: p.comments } (some newId) u
    [] p.comments (newComment usr u text newId now) hfind2 rfl rfl (by simp) rfl
  refine ⟨by rw [hadd], hfind2, by rw [hdel]; rfl, ?_, ?_⟩
  · intro hmem
    exact hfresh _ hmem rfl
  · rw [hdel]
    exact findById_save_same (p := { p with comments := newComment usr u text newId now :: p.comments })
      _ hfind2 rfl

theorem add_then_delete_comment_witness :
    (addComment store0 (some 11) 2 "nice" 51 200).2 =
        ⟨201, .comments (newComment bob 2 "nice" 51 200 :: post11.comments)⟩ ∧
      Post.findById (addComment store0 (some 11) 2 "nice" 51 200).1 (some 11) =
        .ok (some { post11 with comments := newComment bob 2 "nice" 51 200 :: post11.comments }) ∧
      (deleteComment (addComment store0 (some 11) 2 "nice" 51 200).1 (some 11) (some 51) 2).2 =
        ⟨200, .comments post11.comments⟩ ∧
      newComment bob 2 "nice" 51 200 ∉ post11.comments ∧
      Post.findById
        (deleteComment (addComment store0 (some 11) 2 "nice" 51 200).1 (some 11) (some 51) 2).1
        (some 11) = .ok (some post11) :=
  add_then_delete_comment store0 11 post11 2 bob "nice" 51 200 rfl rfl rfl (by decide)

/-! ## Invariants -/

/-- C1: like uniqueness is preserved by the like, unlike, add-comment and delete-comment
handlers: when the stored post `pid` holds at most one Like per user, then after any
such request (by any requester, addressed to any post) the post `pid` is still stored
and still holds at most one Like per user. -/
theorem like_uniqueness_invariant (st : Store) (req : Request) (pid : ObjectId) (p : Post)
    (hfind : Post.findById st (some pid) = .ok (some p)) (huniq : LikesUnique p.likes)
    (hreq : req.isPostUpdate = true) :
    ∃ p', Post.findById (handle st req).1 (some pid) = .ok (some p') ∧
      LikesUnique p'.likes := by
  by_cases ht : req.target = some pid
  · cases req with
    | getPost id u => simp [Request.isPostUpdate] at hreq
    | deletePost id u => simp [Request.isPostUpdate] at hreq
    | like id u =>
      simp only [Request.target] at ht
      subst ht
      rcases likePost_cases st pid p u hfind with ⟨-, h1⟩ | ⟨hnot, h1⟩
      · exact ⟨p, by simp only [handle, h1, hfind], huniq⟩
      · refine ⟨{ p with likes := { user := u } :: p.likes }, ?_, ?_⟩
        · simp only [handle, h1]
          exact findById_save_same _ hfind rfl
        · unfold LikesUnique at *
          rw [List.map_cons, List.nodup_cons]
          refine ⟨?_, huniq⟩
          intro hmem
          obtain ⟨l, hl, hlu⟩ := List.mem_map.mp hmem
          exact hnot l hl hlu
    | unlike id u =>
      simp only [Request.target] at ht
      subst ht
      rcases unlikePost_cases st pid p u hfind with ⟨-, h1⟩ | ⟨pre, l, post, hsplit, -, -, -, h1⟩
      · exact ⟨p, by simp only [handle, h1, hfind], huniq⟩
      · refine ⟨{ p with likes := pre ++ post }, ?_, ?_⟩
        · simp only [handle, h1]
          exact findById_save_same _ hfind rfl
        · unfold LikesUnique at *
          rw [hsplit] at huniq
          have hsub : List.Sublist (pre ++ post) (pre ++ l :: post) :=
            List.Sublist.append_left (List.sublist_cons_self l post) pre
          exact huniq.sublist (hsub.map _)
    | addComment id u text newId now =>
      simp only [Request.target] at ht
      subst ht
      rcases addComment_cases st pid p u text newId now hfind with h1 | ⟨c, -, -, h1⟩
      · exact ⟨p, by simp only [handle, h1, hfind], huniq⟩
      · refine ⟨{ p with comments := c :: p.comments }, ?_, huniq⟩
        simp only [handle, h1]
        exact findById_save_same _ hfind rfl
    | deleteComment id c u =>
      simp only [Request.target] at ht
      subst ht
      rcases deleteComment_cases st pid p c u hfind with h1 | ⟨pre, cm, post, -, -, -, -, h1⟩
      · exact ⟨p, by simp only [handle, h1, hfind], huniq⟩
      · refine ⟨{ p with comments := pre ++ post }, ?_, huniq⟩
        simp only [handle, h1]
        exact findById_save_same _ hfind rfl
  · exact ⟨p, by rw [handle_frame st req pid ht, hfind], huniq⟩

theorem like_uniqueness_invariant_witness :
    ∃ p', Post.findById (handle store0 (.unlike (some 11) 2)).1 (some 11) = .ok (some p') ∧
      LikesUnique p'.likes :=
  like_uniqueness_invariant store0 (.unlike (some 11) 2) 11 post11 rfl (by decide) rfl

/-- C6 (as stated, refuted): a like by user 2 on post 10, which user 1 owns and which
has no comments before or after, changes the stored post; so does an unlike by user 2
on post 12, which user 1 owns. The requester is neither the owning user nor the author
of any comment of the post. -/
theorem non_owner_like_mutates_post :
    (Post.findById store0 (some 10) = .ok (some post10) ∧
      Post.findById (handle store0 (.like (some 10) 2)).1 (some 10) =
        .ok (some { post10 with likes := [{ user := 2 }] }) ∧
      ({ post10 with likes := [{ user := 2 }] } : Post) ≠ post10 ∧
      (Request.like (some 10) 2).reqUser ≠ post10.user ∧
      post10.comments = []) ∧
    (Post.findById store0 (some 12) = .ok (some post12) ∧
      Post.findById (handle store0 (.unlike (some 12) 2)).1 (some 12) =
        .ok (some { post12 with likes := [] }) ∧
      ({ post12 with likes := [] } : Post) ≠ post12 ∧
      (Request.unlike (some 12) 2).reqUser ≠ post12.user ∧
      post12.comments = []) := by
  refine ⟨⟨rfl, rfl, by decide, by decide, rfl⟩, ⟨rfl, rfl, by decide, by decide, rfl⟩⟩

/-- C6 (amended): if the post stored under `pid` after a request is not the post `p`
stored before, then: for delete-post the requester is the owning user of `p`; for
delete-comment the new post is `p` without one comment whose author is the requester;
for add-comment it is `p` with a new comment of the requester at the head; for like it
is `p` with a Like of the requester at the head; for unlike it is `p` without one Like
of the requester; and get-post-by-id changes nothing. -/
theorem mutation_permission (st : Store) (req : Request) (pid : ObjectId) (p : Post)
    (hfind : Post.findById st (some pid) = .ok (some p))
    (hchg : Post.findById (handle st req).1 (some pid) ≠ .ok (some p)) :
    PermittedChange req p (Post.findById (handle st req).1 (some pid)) := by
  by_cases ht : req.target = some pid
  · cases req with
    | getPost id u =>
      exfalso
      apply hchg
      have h1 : (handle st (.getPost id u)).1 = st := by
        simp only [handle, getPost]
        split <;> rfl
      rw [h1, hfind]
    | deletePost id u =>
      simp only [Request.target] at ht
      subst ht
      rcases deletePost_cases st pid p u hfind with ⟨-, h1⟩ | ⟨howner, -⟩
      · exfalso
        apply hchg
        simp only [handle, h1, hfind]
      · exact howner
    | like id u =>
      simp only [Request.target] at ht
      subst ht
      rcases likePost_cases st pid p u hfind with ⟨-, h1⟩ | ⟨-, h1⟩
      · exfalso
        apply hchg
        simp only [handle, h1, hfind]
      · show Post.findById (likePost st (some pid) u).1 (some pid) = _
        rw [h1]
        exact findById_save_same _ hfind rfl
    | unlike id u =>
      simp only [Request.target] at ht
      subst ht
      rcases unlikePost_cases st pid p u hfind with ⟨-, h1⟩ | ⟨pre, l, post, hsplit, hlu, -, -, h1⟩
      · exfalso
        apply hchg
        simp only [handle, h1, hfind]
      · refine ⟨pre, l, post, hsplit, hlu, ?_⟩
        show Post.findById (unlikePost st (some pid) u).1 (some pid) = _
        rw [h1]
        exact findById_save_same _ hfind rfl
    | addComment id u text newId now =>
      simp only [Request.target] at ht
      subst ht
      rcases addComment_cases st pid p u text newId now hfind with h1 | ⟨c, hc, -, h1⟩
      · exfalso
        apply hchg
        simp only [handle, h1, hfind]
      · refine ⟨c, hc, ?_⟩
        show Post.findById (addComment st (some pid) u text newId now).1 (some pid) = _
        rw [h1]
        exact findById_save_same _ hfind rfl
    | deleteComment id c u =>
      simp only [Request.target] at ht
      subst ht
      rcases deleteComment_cases st pid p c u hfind with
        h1 | ⟨pre, cm, post, hsplit, -, hr, -, h1⟩
      · exfalso
        apply hchg
        simp only [handle, h1, hfind]
      · refine ⟨pre, cm, post, hsplit, hr, ?_⟩
        show Post.findById (deleteComment st (some pid) c u).1 (some pid) = _
        rw [h1]
        exact findById_save_same _ hfind rfl
  · exfalso
    apply hchg
    rw [handle_frame st req pid ht, hfind]

theorem mutation_permission_witness :
    PermittedChange (.deleteComment (some 11) (some 50) 1) post11
      (Post.findById (handle store0 (.deleteComment (some 11) (some 50) 1)).1 (some 11)) :=
  mutation_permission store0 (.deleteComment (some 11) (some 50) 1) 11 post11 rfl
    (by
      intro h
      have h2 : Post.findById (handle store0 (.deleteComment (some 11) (some 50) 1)).1 (some 11) =
          .ok (some { post11 with comments := [] }) := rfl
      rw [h2] at h
      have h3 : ({ post11 with comments := [] } : Post) = post11 := by
        injection h with h
        injection h
      exact absurd h3 (by decide))

end Posts
